import Mathlib

/-!
Verification of the split-TX taproot contract construction
(`SplitSpendInfo` in `src/spend_info/split.rs` of the dlctix repository).

The development shallowly embeds, at byte level:

* the Bitcoin script builder calls used by the source (`push_int`,
  `push_slice`, `push_opcode`), including minimal script-number encoding;
* SHA-256 (FIPS 180-4), whose round constants and initial state are computed
  from the fractional parts of cube and square roots of the first primes,
  and BIP340 tagged hashes;
* secp256k1 point arithmetic (affine interface, Jacobian internally),
  x-only and compressed serialization;
* BIP327 key aggregation as performed by `musig2::KeyAggContext::new`, and
  the taproot tweak as performed by `KeyAggContext::with_taproot_tweak` and
  by rust-bitcoin's `TaprootSpendInfo` construction;
* `TaprootSpendInfo::with_huffman_tree` (min-weight combination over the
  weighted leaves), merkle branches, control blocks, and
  `InputWeightPrediction::new`.

Panics (`expect`) in the source are modelled as a distinguished
`BuildResult.panicked` outcome, separate from ordinary `Error` results;
the weight estimators, which can only panic, return `Option` with `none`
standing for the panic.
-/

set_option maxRecDepth 100000
set_option maxHeartbeats 12000000

namespace Dlctix

/-- Little-endian base-256 digits of `n`, with structural fuel so that the
kernel can evaluate it; `fuel` must bound the number of digits. -/
def natLEAux : Nat → Nat → List Nat
  | 0, _ => []
  | f + 1, n => if n = 0 then [] else n % 256 :: natLEAux f (n / 256)

/-- Little-endian base-256 digits of `n` (enough fuel for any 264-bit value,
which covers every integer the embedded code serializes). -/
def natLEBytes (n : Nat) : List Nat := natLEAux 33 n

/-- Reassemble a natural number from little-endian base-256 digits. -/
def fromLE (l : List Nat) : Nat := l.foldr (fun b acc => b + 256 * acc) 0

/-- Fixed-width big-endian serialization: `width` bytes, most significant
first.  `beBytes 32` is the 32-byte serialization used for x-only keys,
hashes and tweak values. -/
def beBytes (width : Nat) (n : Nat) : List Nat :=
  (List.range width).map (fun i => n / 256 ^ (width - 1 - i) % 256)

/-- Big-endian interpretation of a byte list. -/
def beNat (l : List Nat) : Nat := l.foldl (fun acc b => acc * 256 + b) 0

/-- Lexicographic comparison of byte lists, as produced by the derived `Ord`
on Rust byte arrays/vectors (element-wise, shorter prefix first). -/
def listLe : List Nat → List Nat → Bool
  | [], _ => true
  | _ :: _, [] => false
  | a :: as, b :: bs => if a < b then true else if b < a then false else listLe as bs

/-- Bitcoin compact-size (varint) encoded length in bytes of the value `n`,
as computed by rust-bitcoin's `compact_size::encoded_size`. -/
def compactSizeLen (n : Nat) : Nat :=
  if n < 0xFD then 1 else if n < 0x10000 then 3 else if n < 0x100000000 then 5 else 9

/-! ## SHA-256

Words are naturals reduced modulo `2^32`.  The initial state is the
fractional part of the square roots of the first 8 primes and the round
constants the fractional part of the cube roots of the first 64 primes,
both computed here by integer root extraction (FIPS 180-4 section 4.2.2
and 5.3.3). -/

/-- The first sixty-four prime numbers. -/
def first64Primes : List Nat :=
  [2, 3, 5, 7, 11, 13, 17, 19, 23, 29, 31, 37, 41, 43, 47, 53,
   59, 61, 67, 71, 73, 79, 83, 89, 97, 101, 103, 107, 109, 113, 127, 131,
   137, 139, 149, 151, 157, 163, 167, 173, 179, 181, 191, 193, 197, 199, 211, 223,
   227, 229, 233, 239, 241, 251, 257, 263, 269, 271, 277, 281, 283, 293, 307, 311]

/-- Binary-search step for integer roots: maintains `lo^k ≤ n < hi^k`. -/
def rootSearch (pow : Nat → Nat) : Nat → Nat → Nat → Nat → Nat
  | 0, _, lo, _ => lo
  | f + 1, n, lo, hi =>
    if hi ≤ lo + 1 then lo
    else
      let mid := (lo + hi) / 2
      if pow mid ≤ n then rootSearch pow f n mid hi else rootSearch pow f n lo mid

/-- Integer square root by binary search (kernel-evaluable). -/
def isqrt (n : Nat) : Nat := rootSearch (fun m => m * m) 400 n 0 (n + 1)

/-- Integer cube root by binary search (kernel-evaluable). -/
def icbrt (n : Nat) : Nat := rootSearch (fun m => m * m * m) 400 n 0 (n + 1)

/-- SHA-256 initial hash state: first 32 fractional bits of `sqrt p` for the
first eight primes `p`. -/
def shaH0 : List Nat :=
  (first64Primes.take 8).map (fun q => isqrt (q * 2 ^ 64) % 2 ^ 32)

/-- SHA-256 round constants: first 32 fractional bits of `cbrt p` for the
first sixty-four primes `p`. -/
def shaK : List Nat :=
  first64Primes.map (fun q => icbrt (q * 2 ^ 96) % 2 ^ 32)

/-- Right rotation of a 32-bit word. -/
def rotr32 (x n : Nat) : Nat := (x / 2 ^ n + x % 2 ^ n * 2 ^ (32 - n)) % 2 ^ 32

/-- SHA-256 `Ch` function. -/
def shaCh (x y z : Nat) : Nat := Nat.xor (Nat.land x y) (Nat.land (2 ^ 32 - 1 - x) z)

/-- SHA-256 `Maj` function. -/
def shaMaj (x y z : Nat) : Nat := Nat.xor (Nat.xor (Nat.land x y) (Nat.land x z)) (Nat.land y z)

/-- SHA-256 `Σ₀`. -/
def bsig0 (x : Nat) : Nat := Nat.xor (Nat.xor (rotr32 x 2) (rotr32 x 13)) (rotr32 x 22)

/-- SHA-256 `Σ₁`. -/
def bsig1 (x : Nat) : Nat := Nat.xor (Nat.xor (rotr32 x 6) (rotr32 x 11)) (rotr32 x 25)

/-- SHA-256 `σ₀`. -/
def ssig0 (x : Nat) : Nat := Nat.xor (Nat.xor (rotr32 x 7) (rotr32 x 18)) (x / 2 ^ 3)

/-- SHA-256 `σ₁`. -/
def ssig1 (x : Nat) : Nat := Nat.xor (Nat.xor (rotr32 x 17) (rotr32 x 19)) (x / 2 ^ 10)

/-- Extend the sixteen message words to sixty-four (message schedule).  The
accumulator is kept most-recent-first, so the taps `t-2`, `t-7`, `t-15`,
`t-16` of FIPS 180-4 are the fixed positions 1, 6, 14, 15. -/
def shaScheduleRev : Nat → List Nat → List Nat
  | 0, w => w.reverse
  | f + 1, w =>
    let nw := (ssig1 (w.getD 1 0) + w.getD 6 0 +
               ssig0 (w.getD 14 0) + w.getD 15 0) % 2 ^ 32
    shaScheduleRev f (nw :: w)

/-- One SHA-256 compression round: state is the eight working words. -/
def shaRound (kw : Nat) (st : List Nat) : List Nat :=
  match st with
  | [a, b, c, d, e, f, g, h] =>
    let t1 := (h + bsig1 e + shaCh e f g + kw) % 2 ^ 32
    let t2 := (bsig0 a + shaMaj a b c) % 2 ^ 32
    [(t1 + t2) % 2 ^ 32, a, b, c, (d + t1) % 2 ^ 32, e, f, g]
  | other => other

/-- Run the sixty-four compression rounds. -/
def shaRounds : List Nat → List Nat → List Nat
  | [], st => st
  | kw :: rest, st => shaRounds rest (shaRound kw st)

/-- Compress one 64-byte block into the running state. -/
def shaCompress (st : List Nat) (block : List Nat) : List Nat :=
  let w0 := (List.range 16).map (fun i =>
    beNat ((block.drop (4 * i)).take 4))
  let w := shaScheduleRev 48 w0.reverse
  let kws := shaK.zip w
  let fin := shaRounds (kws.map (fun p => (p.1 + p.2) % 2 ^ 32)) st
  (st.zip fin).map (fun p => (p.1 + p.2) % 2 ^ 32)

/-- Fold the compression function over consecutive 64-byte blocks. -/
def shaBlocks : Nat → List Nat → List Nat → List Nat
  | 0, st, _ => st
  | _ + 1, st, [] => st
  | f + 1, st, msg => shaBlocks f (shaCompress st (msg.take 64)) (msg.drop 64)

/-- SHA-256 padding: `0x80`, zeros, then the 64-bit big-endian bit length,
to a multiple of 64 bytes. -/
def shaPad (msg : List Nat) : List Nat :=
  let len := msg.length
  let zeros := (119 - len % 64) % 64
  msg ++ [0x80] ++ List.replicate zeros 0 ++ beBytes 8 (8 * len)

/-- SHA-256 of a byte list, as 32 bytes. -/
def sha256 (msg : List Nat) : List Nat :=
  let padded := shaPad msg
  let st := shaBlocks (padded.length / 64 + 1) shaH0 padded
  st.foldr (fun w acc => beBytes 4 w ++ acc) []

/-- BIP340 tagged hash: `SHA256(SHA256(tag) || SHA256(tag) || msg)`. -/
def taggedHash (tag msg : List Nat) : List Nat :=
  let th := sha256 tag
  sha256 (th ++ th ++ msg)

/-! ## secp256k1

Points of the curve `y² = x³ + 7` over `F_p`.  The affine interface uses
`Option (Nat × Nat)` with `none` for the point at infinity, matching the
`secp` crate's `Point`/`MaybePoint` split; scalar multiplication runs in
Jacobian coordinates internally, as the backing libraries do. -/

/-- The secp256k1 field prime. -/
def secpP : Nat := 2 ^ 256 - 2 ^ 32 - 977

/-- The secp256k1 group order. -/
def secpN : Nat := 0xFFFFFFFFFFFFFFFFFFFFFFFFFFFFFFFEBAAEDCE6AF48A03BBFD25E8CD0364141

/-- An affine curve point (coordinates reduced modulo `secpP`). -/
abbrev PointA := Nat × Nat

/-- An affine point or the point at infinity. -/
abbrev MaybePoint := Option PointA

/-- `a - b` in the field. -/
def fsub (a b : Nat) : Nat := (a + (secpP - b % secpP)) % secpP

/-- Modular exponentiation by structural recursion on fuel (kernel-evaluable,
square-and-multiply from the low bits of the exponent). -/
def powModAux : Nat → Nat → Nat → Nat → Nat
  | 0, _, _, m => 1 % m
  | f + 1, b, e, m =>
    if e = 0 then 1 % m
    else
      let h := powModAux f (b * b % m) (e / 2) m
      if e % 2 = 1 then h * b % m else h

/-- Modular exponentiation `b ^ e % m` (fuel covers 300-bit exponents). -/
def powMod (b e m : Nat) : Nat := powModAux 300 b e m

/-- Field inverse by Fermat's little theorem. -/
def finv (a : Nat) : Nat := powMod a (secpP - 2) secpP

/-- Whether `(x, y)` satisfies the curve equation with reduced coordinates. -/
def onCurve (P : PointA) : Bool :=
  P.1 < secpP && P.2 < secpP && (P.2 * P.2) % secpP = (P.1 * P.1 * P.1 + 7) % secpP

/-- Affine point addition (complete on the valid-point domain). -/
def affAdd (P Q : PointA) : MaybePoint :=
  if P.1 % secpP = Q.1 % secpP then
    if (P.2 + Q.2) % secpP = 0 then none
    else
      let lam := 3 * P.1 * P.1 % secpP * finv (2 * P.2 % secpP) % secpP
      let x3 := fsub (lam * lam) (P.1 + Q.1)
      some (x3, fsub (lam * fsub P.1 x3) P.2)
  else
    let lam := fsub Q.2 P.2 * finv (fsub Q.1 P.1) % secpP
    let x3 := fsub (lam * lam) (P.1 + Q.1)
    some (x3, fsub (lam * fsub P.1 x3) P.2)

/-- Addition on `MaybePoint` (infinity is the identity). -/
def addM : MaybePoint → MaybePoint → MaybePoint
  | none, q => q
  | p, none => p
  | some p, some q => affAdd p q

/-- A point in Jacobian coordinates; `Z = 0` is the point at infinity. -/
abbrev JPoint := Nat × Nat × Nat

/-- Jacobian doubling on `y² = x³ + 7` (`a = 0`). -/
def jDouble (P : JPoint) : JPoint :=
  match P with
  | (x, y, z) =>
    if y % secpP = 0 ∨ z % secpP = 0 then (1, 1, 0)
    else
      let s := 4 * x * (y * y % secpP) % secpP
      let m := 3 * (x * x % secpP) % secpP
      let x2 := fsub (m * m) (2 * s)
      let yq := y * y % secpP
      let y2 := fsub (m * fsub s x2) (8 * (yq * yq % secpP))
      (x2, y2, 2 * y * z % secpP)

/-- Jacobian addition. -/
def jAdd (P Q : JPoint) : JPoint :=
  match P, Q with
  | (x1, y1, z1), (x2, y2, z2) =>
    if z1 % secpP = 0 then (x2, y2, z2)
    else if z2 % secpP = 0 then (x1, y1, z1)
    else
      let zz2 := z2 * z2 % secpP
      let zz1 := z1 * z1 % secpP
      let u1 := x1 * zz2 % secpP
      let u2 := x2 * zz1 % secpP
      let s1 := y1 * (zz2 * z2 % secpP) % secpP
      let s2 := y2 * (zz1 * z1 % secpP) % secpP
      if u1 = u2 then
        if s1 = s2 then jDouble (x1, y1, z1) else (1, 1, 0)
      else
        let h := fsub u2 u1
        let r := fsub s2 s1
        let hh := h * h % secpP
        let hhh := h * hh % secpP
        let x3 := fsub (r * r % secpP) (hhh + 2 * (u1 * hh % secpP))
        let y3 := fsub (r * fsub (u1 * hh % secpP) x3) (s1 * hhh % secpP)
        (x3, y3, h * (z1 * z2 % secpP) % secpP)

/-- Back to affine coordinates. -/
def toAffine (P : JPoint) : MaybePoint :=
  match P with
  | (x, y, z) =>
    if z % secpP = 0 then none
    else
      let zi := finv z
      let zi2 := zi * zi % secpP
      some (x * zi2 % secpP, y * (zi2 * zi % secpP) % secpP)

/-- Double-and-add ladder over the scalar's binary digits (structural fuel). -/
def jMulAux : Nat → Nat → JPoint → JPoint → JPoint
  | 0, _, acc, _ => acc
  | f + 1, k, acc, base =>
    if k = 0 then acc
    else jMulAux f (k / 2) (if k % 2 = 1 then jAdd acc base else acc) (jDouble base)

/-- Scalar multiplication `k · P` for an affine point. -/
def mulP (k : Nat) (P : PointA) : MaybePoint :=
  toAffine (jMulAux 300 k (1, 1, 0) (P.1, P.2, 1))

/-- The secp256k1 base point. -/
def gPoint : PointA :=
  (0x79BE667EF9DCBBAC55A06295CE870B07029BFCDB2DCE28D959F2815B16F81798,
   0x483ADA7726A3C4655DA4FBFC0E1108A8FD17B448A68554199C47D08FFB10D4B8)

/-- Scalar multiple of the base point. -/
def mulG (k : Nat) : MaybePoint := mulP k gPoint

/-- Compressed 33-byte serialization: parity prefix then big-endian x.  Rust's
`Ord` on public keys compares exactly these bytes. -/
def serP (P : PointA) : List Nat :=
  (if P.2 % 2 = 0 then 0x02 else 0x03) :: beBytes 32 P.1

/-- x-only 32-byte serialization (`Point::serialize_xonly`). -/
def xonlySer (P : PointA) : List Nat := beBytes 32 P.1

/-- Negate the point if its y coordinate is odd, yielding the even-parity
representative with the same x (BIP340 lift of the x-only key). -/
def evenY (P : PointA) : PointA :=
  if P.2 % 2 = 0 then P else (P.1, (secpP - P.2) % secpP)

/-! ## Bitcoin script building

The byte sequences produced by the `bitcoin::script::Builder` calls in
`SplitSpendInfo::new`: `push_opcode`, `push_slice` (all pushed slices are
32 bytes, hence a single `OP_PUSHBYTES_32` length byte), and `push_int`
with its minimal script-number encoding. -/

/-- `OP_CSV` (0xb2). -/
def opCSV : Nat := 0xb2

/-- `OP_DROP` (0x75). -/
def opDROP : Nat := 0x75

/-- `OP_SHA256` (0xa8). -/
def opSHA256 : Nat := 0xa8

/-- `OP_EQUALVERIFY` (0x88). -/
def opEQUALVERIFY : Nat := 0x88

/-- `OP_CHECKSIG` (0xac). -/
def opCHECKSIG : Nat := 0xac

/-- Little-endian sign-magnitude script-number encoding
(rust-bitcoin `build_scriptint`): magnitude digits, then either a sign
byte appended when the top digit has the high bit set, or the sign folded
into the top digit. -/
def scriptIntBytes (v : Int) : List Nat :=
  let mag := natLEBytes v.natAbs
  match mag.getLast? with
  | none => []
  | some last =>
    if 0x80 ≤ last then mag ++ [if v < 0 then 0x80 else 0]
    else if v < 0 then mag.dropLast ++ [last + 0x80]
    else mag

/-- `Builder::push_int`: dedicated opcodes for `-1` and `1..=16`
(`OP_1NEGATE`, `OP_PUSHNUM_1..16`), `OP_0` for zero, otherwise a minimal
script-number data push (length byte, then the digits). -/
def pushIntE (v : Int) : List Nat :=
  if v = -1 ∨ (1 ≤ v ∧ v ≤ 16) then [(v - 1 + 0x51).toNat]
  else if v = 0 then [0x00]
  else (scriptIntBytes v).length :: scriptIntBytes v

/-- `Builder::push_slice` of a 32-byte slice: `OP_PUSHBYTES_32` then the
data. -/
def pushData32 (h : List Nat) : List Nat := 0x20 :: h

/-- Winner identity.  Modelled from the spec: `parties::Player` is not under
`src/`; the spec's data model gives it a public key and two 32-byte
commitment hashes (ticket hash, payout hash), which are the only fields
`split.rs` reads. -/
structure Player where
  pubkey : PointA
  ticketHash : Nat
  payoutHash : Nat
deriving DecidableEq, Repr

/-- Counterparty identity.  Modelled from the spec: `parties::MarketMaker`
is not under `src/`; the spec gives it a public key only. -/
structure MarketMaker where
  pubkey : PointA
deriving DecidableEq, Repr

/-- The win script of `SplitSpendInfo::new` (src/spend_info/split.rs:55-67):
relative-timelock check, ticket hash-lock, winner signature check. -/
def winScript (delta : Nat) (w : Player) : List Nat :=
  pushIntE delta ++ [opCSV, opDROP] ++
  [opSHA256] ++ pushData32 (beBytes 32 w.ticketHash) ++ [opEQUALVERIFY] ++
  pushData32 (xonlySer w.pubkey) ++ [opCHECKSIG]

/-- The reclaim script (src/spend_info/split.rs:73-81): doubled relative
timelock, market-maker signature check. -/
def reclaimScript (delta : Nat) (mm : MarketMaker) : List Nat :=
  pushIntE (2 * delta) ++ [opCSV, opDROP] ++
  pushData32 (xonlySer mm.pubkey) ++ [opCHECKSIG]

/-- The sellback script (src/spend_info/split.rs:88-96): payout hash-lock,
market-maker signature check, no timelock. -/
def sellbackScript (w : Player) (mm : MarketMaker) : List Nat :=
  [opSHA256] ++ pushData32 (beBytes 32 w.payoutHash) ++ [opEQUALVERIFY] ++
  pushData32 (xonlySer mm.pubkey) ++ [opCHECKSIG]

/-! ## MuSig2 key aggregation (BIP327, as implemented by `musig2`)

Tag byte lists are the ASCII of the BIP327/BIP341 tag strings. -/

/-- ASCII of the KeyAgg list tag. -/
def keyAggListTag : List Nat :=
  [0x4B, 0x65, 0x79, 0x41, 0x67, 0x67, 0x20, 0x6C, 0x69, 0x73, 0x74]

/-- ASCII of the KeyAgg coefficient tag. -/
def keyAggCoeffTag : List Nat :=
  [0x4B, 0x65, 0x79, 0x41, 0x67, 0x67, 0x20, 0x63, 0x6F, 0x65, 0x66,
   0x66, 0x69, 0x63, 0x69, 0x65, 0x6E, 0x74]

/-- ASCII of the TapLeaf tag. -/
def tapLeafTag : List Nat := [0x54, 0x61, 0x70, 0x4C, 0x65, 0x61, 0x66]

/-- ASCII of the TapBranch tag. -/
def tapBranchTag : List Nat := [0x54, 0x61, 0x70, 0x42, 0x72, 0x61, 0x6E, 0x63, 0x68]

/-- ASCII of the TapTweak tag. -/
def tapTweakTag : List Nat := [0x54, 0x61, 0x70, 0x54, 0x77, 0x65, 0x61, 0x6B]

/-- BIP327 `hash_keys`: tagged hash of the concatenated compressed keys. -/
def keyAggListHash (ks : List PointA) : List Nat :=
  taggedHash keyAggListTag (ks.map serP).flatten

/-- BIP327 key-aggregation coefficient from the list hash. -/
def keyAggCoeffHash (ks : List PointA) (k : PointA) : Nat :=
  beNat (taggedHash keyAggCoeffTag (keyAggListHash ks ++ serP k)) % secpN

/-- BIP327 key-aggregation coefficient: `1` for (copies of) the second
distinct key of the list, the tagged coefficient hash otherwise; keys are
compared by compressed serialization. -/
def keyAggCoeff (ks : List PointA) (k : PointA) : Nat :=
  match ks with
  | [] => 0
  | k0 :: rest =>
    match rest.find? (fun x => serP x != serP k0) with
    | some k2 => if serP k == serP k2 then 1 else keyAggCoeffHash ks k
    | none => keyAggCoeffHash ks k

/-- The aggregation context exposed by `musig2::KeyAggContext`: the ordered
key list and the aggregated (joint) public key. -/
structure KeyAggContext where
  pubkeys : List PointA
  agg : PointA
deriving DecidableEq, Repr

/-- `KeyAggContext::new`: BIP327 KeyAgg.  Fails (`KeyAggError`) when the
coefficient-weighted sum of the keys is the point at infinity — which is
also the case of the empty list.  Duplicate keys are not rejected. -/
def keyAggNew (ks : List PointA) : Option KeyAggContext :=
  match ks.foldl (fun acc k => addM acc (mulP (keyAggCoeff ks k) k)) none with
  | none => none
  | some q => some ⟨ks, q⟩

/-- BIP341 tweak value: tagged hash of the x-only internal key and the
merkle root, read as a big-endian integer. -/
def tapTweakScalar (P : PointA) (root : List Nat) : Nat :=
  beNat (taggedHash tapTweakTag (xonlySer P ++ root))

/-- BIP341 output point: even-parity lift of the internal key plus
`tweak·G`.  `none` when the tweak is out of scalar range or the sum is the
point at infinity — the failure both `musig2` (as `TweakError`) and
rust-bitcoin (as a panic) guard against. -/
def tapTweakPoint (P : PointA) (root : List Nat) : MaybePoint :=
  let t := tapTweakScalar P root
  if secpN ≤ t then none
  else addM (some (evenY P)) (mulG t)

/-- `KeyAggContext::with_taproot_tweak`: same key list, aggregated key
replaced by the BIP341-tweaked point. -/
def withTaprootTweak (ctx : KeyAggContext) (root : List Nat) : Option KeyAggContext :=
  (tapTweakPoint ctx.agg root).map (fun q => ⟨ctx.pubkeys, q⟩)

/-! ## Taproot commitment tree (rust-bitcoin `TaprootSpendInfo`) -/

/-- `LeafVersion::TapScript` (0xc0). -/
def leafVerTapScript : Nat := 0xC0

/-- BIP341 leaf hash: tagged hash of leaf version, compact-size script
length, script bytes. -/
def tapLeafHash (s : List Nat) : List Nat :=
  taggedHash tapLeafTag (leafVerTapScript :: s.length :: s)

/-- BIP341 branch hash: tagged hash of the two child hashes in
lexicographic order. -/
def tapBranchHash (a b : List Nat) : List Nat :=
  taggedHash tapBranchTag (if listLe a b then a ++ b else b ++ a)

/-- A tree node: its hash, and for every leaf below it the leaf script and
the merkle branch accumulated so far (deepest sibling first). -/
structure NodeInfo where
  hash : List Nat
  leaves : List (List Nat × List (List Nat))
deriving DecidableEq, Repr

/-- A single-leaf node (`NodeInfo::new_leaf_with_ver`). -/
def leafNode (s : List Nat) : NodeInfo := ⟨tapLeafHash s, [(s, [])]⟩

/-- `NodeInfo::combine`: each side's leaves gain the other side's hash as
the next branch element; fails when a leaf would exceed the taproot depth
limit of 128. -/
def combineNodes (a b : NodeInfo) : Option NodeInfo :=
  if (a.leaves ++ b.leaves).all (fun l => l.2.length + 1 ≤ 128) then
    some ⟨tapBranchHash a.hash b.hash,
      a.leaves.map (fun l => (l.1, l.2 ++ [b.hash])) ++
      b.leaves.map (fun l => (l.1, l.2 ++ [a.hash]))⟩
  else none

/-- Remove a minimum-weight entry (first among ties) from a work list; the
outcome of the construction is invariant under the tie order, since
combined hashes sort their children. -/
def popMin : List (Nat × NodeInfo) → Option ((Nat × NodeInfo) × List (Nat × NodeInfo))
  | [] => none
  | [x] => some (x, [])
  | x :: xs =>
    match popMin xs with
    | none => some (x, [])
    | some (m, rest) => if x.1 ≤ m.1 then some (x, xs) else some (m, x :: rest)

/-- The Huffman combination loop of `with_huffman_tree`: repeatedly merge
the two lowest-weight nodes until one remains. -/
def huffLoop : Nat → List (Nat × NodeInfo) → Option NodeInfo
  | _, [] => none
  | _, [(_, nd)] => some nd
  | 0, _ => none
  | f + 1, l =>
    match popMin l with
    | none => none
    | some (a, rest) =>
      match popMin rest with
      | none => none
      | some (b, rest2) =>
        match combineNodes a.2 b.2 with
        | none => none
        | some c => huffLoop f ((a.1 + b.1, c) :: rest2)

/-- The spend data of `TaprootSpendInfo` that `split.rs` consumes: the
(lifted) internal key, the merkle root, the per-leaf merkle branches, and
the tweaked output key. -/
structure SpendInfo where
  internal : PointA
  mroot : Option (List Nat)
  leaves : List (List Nat × List (List Nat))
  outputPoint : PointA
deriving DecidableEq, Repr

/-- The single protocol error type (modelled from the spec: `errors.rs` is
not under `src/`; section 7 of the spec gives the taxonomy — `setup` for
key-aggregation failures, `validation` for malformed script inputs,
`treeBuild` for tree-assembly failures, `tweak` for a degenerate tweak
result returned by the aggregation library). -/
inductive Error where
  | setup
  | validation
  | treeBuild
  | tweak
deriving DecidableEq, Repr

/-- Outcome of a fallible construction: an ordinary error result, or the
distinguished unrecoverable-panic outcome produced by `expect`. -/
inductive BuildResult (α : Type) where
  | ok (val : α)
  | err (e : Error)
  | panicked

/-- `TaprootSpendInfo::with_huffman_tree` followed by `from_node_info`:
build the weighted tree, then tweak the internal key with the root hash
(`none` from the tweak is an `expect` panic inside rust-bitcoin). -/
def withHuffmanTree (internal : PointA) (ws : List (Nat × List Nat)) : BuildResult SpendInfo :=
  match huffLoop ws.length (ws.map (fun p => (p.1, leafNode p.2))) with
  | none => .err .treeBuild
  | some node =>
    match tapTweakPoint internal node.hash with
    | none => .panicked
    | some outP => .ok ⟨evenY internal, some node.hash, node.leaves, outP⟩

/-- A control block: header byte (leaf version plus output-key parity),
x-only internal key, merkle branch. -/
structure ControlBlock where
  header : Nat
  internalKey : List Nat
  branch : List (List Nat)
deriving DecidableEq, Repr

/-- `TaprootSpendInfo::control_block`: look up the leaf by script bytes. -/
def controlBlockFind (si : SpendInfo) (s : List Nat) : Option ControlBlock :=
  (si.leaves.find? (fun l => l.1 == s)).map (fun l =>
    ⟨leafVerTapScript + si.outputPoint.2 % 2, xonlySer si.internal, l.2⟩)

/-- Serialized control-block size: header, 32-byte internal key, 32 bytes
per branch element. -/
def cbSize (cb : ControlBlock) : Nat := 33 + 32 * cb.branch.length

/-- rust-bitcoin's `InputWeightPrediction`: the input's script field size
and witness size, with compact-size length prefixes, as computed by
`InputWeightPrediction::new`. -/
structure InputWeightPrediction where
  scriptSize : Nat
  witnessSize : Nat
deriving DecidableEq, Repr

/-- `InputWeightPrediction::new`. -/
def iwpNew (scriptLen : Nat) (ws : List Nat) : InputWeightPrediction :=
  { scriptSize := scriptLen + compactSizeLen scriptLen
    witnessSize :=
      if ws.length = 0 then 0
      else (ws.map (fun l => l + compactSizeLen l)).sum + compactSizeLen ws.length }

/-- `key::constants::SCHNORR_SIGNATURE_SIZE`. -/
def schnorrSigSize : Nat := 64

/-- `hashlock::PREIMAGE_SIZE`.  Modelled from the spec: `hashlock.rs` is
not under `src/`; the spec fixes a protocol-defined hash-preimage length
matching the 32-byte commitment digests. -/
def preimageSize : Nat := 32

/-! ## `SplitSpendInfo` -/

/-- The split-TX payout output descriptor (`SplitSpendInfo`). -/
structure SplitSpendInfo where
  untweakedCtx : KeyAggContext
  tweakedCtx : KeyAggContext
  payoutValue : Nat
  spendInfo : SpendInfo
  winner : Player
  winScr : List Nat
  reclaimScr : List Nat
  sellbackScr : List Nat

/-- `vec![market_maker.pubkey, winner.pubkey]` followed by `sort()`:
byte-lexicographic order of the compressed serializations, stable on
ties. -/
def sortedKeyList (mmKey wKey : PointA) : List PointA :=
  if listLe (serP mmKey) (serP wKey) then [mmKey, wKey] else [wKey, mmKey]

/-- `SplitSpendInfo::new` (src/spend_info/split.rs:40-127).  The merkle
root `expect` at line 112 is the `.panicked` arm of the `mroot` match. -/
def newSplit (winner : Player) (mm : MarketMaker) (payoutValue : Nat)
    (blockDelta : Fin 65536) : BuildResult SplitSpendInfo :=
  match keyAggNew (sortedKeyList mm.pubkey winner.pubkey) with
  | none => .err .setup
  | some uctx =>
    let win := winScript blockDelta.val winner
    let rcl := reclaimScript blockDelta.val mm
    let sell := sellbackScript winner mm
    match withHuffmanTree uctx.agg [(2, sell), (1, win), (1, rcl)] with
    | .err _ => .err .treeBuild
    | .panicked => .panicked
    | .ok tsi =>
      match tsi.mroot with
      | none => .panicked
      | some root =>
        match withTaprootTweak uctx root with
        | none => .err .tweak
        | some tctx => .ok ⟨uctx, tctx, payoutValue, tsi, winner, win, rcl, sell⟩

/-- `script_pubkey`: `OP_PUSHNUM_1`, `OP_PUSHBYTES_32`, the x-only output
key. -/
def scriptPubkey (d : SplitSpendInfo) : List Nat :=
  [0x51, 0x20] ++ xonlySer d.spendInfo.outputPoint

/-- `input_weight_for_win_tx`; `none` is the control-block `expect`
panic. -/
def inputWeightForWinTx (d : SplitSpendInfo) : Option InputWeightPrediction :=
  (controlBlockFind d.spendInfo d.winScr).map (fun cb =>
    iwpNew 0 [schnorrSigSize, preimageSize, d.winScr.length, cbSize cb])

/-- `input_weight_for_reclaim_tx`; no preimage element. -/
def inputWeightForReclaimTx (d : SplitSpendInfo) : Option InputWeightPrediction :=
  (controlBlockFind d.spendInfo d.reclaimScr).map (fun cb =>
    iwpNew 0 [schnorrSigSize, d.reclaimScr.length, cbSize cb])

/-- `input_weight_for_sellback_tx`. -/
def inputWeightForSellbackTx (d : SplitSpendInfo) : Option InputWeightPrediction :=
  (controlBlockFind d.spendInfo d.sellbackScr).map (fun cb =>
    iwpNew 0 [schnorrSigSize, preimageSize, d.sellbackScr.length, cbSize cb])

/-- Whether a construction outcome is a success. -/
def BuildResult.isOkB {α : Type} : BuildResult α → Bool
  | .ok _ => true
  | _ => false

/-- Whether a construction outcome is a given ordinary error. -/
def BuildResult.isErrB {α : Type} (e : Error) : BuildResult α → Bool
  | .err e2 => e2 = e
  | _ => false

/-- The merkle root stored by a successful construction. -/
def resultRoot : BuildResult SplitSpendInfo → Option (List Nat)
  | .ok d => d.spendInfo.mroot
  | _ => none

/-! ## Derived forms and concrete inputs used by the verification -/

/-- The merkle root the three weighted leaves produce: the two weight-1
leaves (win, reclaim) are combined first, then the weight-2 sellback
leaf. -/
def rootOfScripts (sell win rcl : List Nat) : List Nat :=
  tapBranchHash (tapBranchHash (tapLeafHash win) (tapLeafHash rcl)) (tapLeafHash sell)

/-- The per-leaf merkle branches of the tree built from the three weighted
leaves: win and reclaim at depth two, sellback at depth one. -/
def leavesOfScripts (sell win rcl : List Nat) : List (List Nat × List (List Nat)) :=
  [(win, [tapLeafHash rcl, tapLeafHash sell]),
   (rcl, [tapLeafHash win, tapLeafHash sell]),
   (sell, [tapBranchHash (tapLeafHash win) (tapLeafHash rcl)])]

/-- Left inverse of `pushIntE` on natural inputs: a lone byte is `OP_0` or
an `OP_PUSHNUM`, anything longer is a length-prefixed little-endian
script number. -/
def pushIntDecode : List Nat → Option Nat
  | [] => none
  | [b] => if b = 0 then some 0 else if 0x51 ≤ b ∧ b ≤ 0x60 then some (b - 0x50) else none
  | _ :: rest => some (fromLE rest)

/-- Success of the three fallible construction steps, in the spec's terms
(key aggregation, tree building with merkle root, tweaking); written from
the claim wording so that `newSplit`'s success can be compared against
it. -/
def aggTreeTweakOk (w : Player) (mm : MarketMaker) (δ : Fin 65536) : Bool :=
  match keyAggNew (sortedKeyList mm.pubkey w.pubkey) with
  | none => false
  | some u =>
    match withHuffmanTree u.agg
        [(2, sellbackScript w mm), (1, winScript δ.val w), (1, reclaimScript δ.val mm)] with
    | .ok tsi =>
      match tsi.mroot with
      | some root => (withTaprootTweak u root).isSome
      | none => false
    | _ => false

/-- Twice the base point (concrete second public key for test inputs). -/
def pt2G : PointA :=
  (0xC6047F9441ED7D6D3045406E95C07CD85C778E4B8CEF3CA7ABAC09B95C709EE5,
   0x1AE168FEA63DC339A3C58419466CEAEEF7F632653266D0E1236431A950CFE52A)

/-- A concrete winner: base-point key, ticket hash 1, payout hash 2. -/
def wC : Player := ⟨gPoint, 1, 2⟩

/-- A concrete market maker with key `2·G`. -/
def mmC : MarketMaker := ⟨pt2G⟩

/-- Construct the concrete descriptor with round delays 1 and 2 (all other
inputs equal) and test whether both succeed with distinct merkle roots. -/
def rootsChangeWithDelay : Bool :=
  match newSplit wC mmC 100000 1, newSplit wC mmC 100000 2 with
  | .ok d1, .ok d2 => d1.spendInfo.mroot != d2.spendInfo.mroot
  | _, _ => false

/-- A concrete winner whose key equals the market maker's (base point). -/
def wDup : Player := ⟨gPoint, 3, 4⟩

/-- A market maker with the same key as `wDup`. -/
def mmDup : MarketMaker := ⟨gPoint⟩

/-- Whether constructing with the duplicated key pair succeeds. -/
def duplicateKeysOk : Bool := (newSplit wDup mmDup 100000 144).isOkB

/-! ## Lemmas: byte-level encodings -/

theorem listLe_total : ∀ a b : List Nat, listLe a b = true ∨ listLe b a = true := by
  intro a
  induction a with
  | nil => intro b; left; rfl
  | cons x xs ih =>
    intro b
    cases b with
    | nil => right; rfl
    | cons y ys =>
      by_cases hxy : x < y
      · left; simp [listLe, hxy]
      · by_cases hyx : y < x
        · right; simp [listLe, hyx, Nat.lt_asymm hyx]
        · have hxe : x = y := Nat.le_antisymm (Nat.le_of_not_lt hyx) (Nat.le_of_not_lt hxy)
          subst hxe
          rcases ih ys with h | h
          · left; simp [listLe, h]
          · right; simp [listLe, h]

theorem listLe_antisymm : ∀ a b : List Nat, listLe a b = true → listLe b a = true → a = b := by
  intro a
  induction a with
  | nil =>
    intro b _ hba
    cases b with
    | nil => rfl
    | cons y ys => simp [listLe] at hba
  | cons x xs ih =>
    intro b hab hba
    cases b with
    | nil => simp [listLe] at hab
    | cons y ys =>
      by_cases hxy : x < y
      · simp [listLe, hxy, Nat.lt_asymm hxy] at hba
      · by_cases hyx : y < x
        · simp [listLe, hxy, hyx] at hab
        · have hxe : x = y := Nat.le_antisymm (Nat.le_of_not_lt hyx) (Nat.le_of_not_lt hxy)
          subst hxe
          simp only [listLe, Nat.lt_irrefl, if_false] at hab hba
          exact congrArg (x :: ·) (ih ys hab hba)

theorem beBytes_length (w n : Nat) : (beBytes w n).length = w := by
  simp [beBytes]

theorem natLEAux_length_le : ∀ f k n, n < 256 ^ k → k ≤ f → (natLEAux f n).length ≤ k := by
  intro f
  induction f with
  | zero => intro k n _ _; simp [natLEAux]
  | succ f ih =>
    intro k n hn hk
    by_cases h0 : n = 0
    · simp [natLEAux, h0]
    · cases k with
      | zero => omega
      | succ k =>
        have hd : n / 256 < 256 ^ k := by
          have : n < 256 ^ k * 256 := by rw [← pow_succ]; exact hn
          exact Nat.div_lt_of_lt_mul (by omega)
        simpa [natLEAux, h0] using ih k (n / 256) hd (by omega)

theorem fromLE_natLEAux : ∀ f n, n < 256 ^ f → fromLE (natLEAux f n) = n := by
  intro f
  induction f with
  | zero => intro n hn; interval_cases n; rfl
  | succ f ih =>
    intro n hn
    by_cases h0 : n = 0
    · simp [natLEAux, h0, fromLE]
    · have hd : n / 256 < 256 ^ f := by
        have : n < 256 ^ f * 256 := by rw [← pow_succ]; exact hn
        exact Nat.div_lt_of_lt_mul (by omega)
      have := ih (n / 256) hd
      simp only [natLEAux, h0, if_false, fromLE, List.foldr_cons] at *
      omega

theorem fromLE_natLEBytes (n : Nat) (hn : n < 256 ^ 33) : fromLE (natLEBytes n) = n :=
  fromLE_natLEAux 33 n hn

theorem fromLE_append_zero (l : List Nat) : fromLE (l ++ [0]) = fromLE l := by
  simp [fromLE, List.foldr_append]

theorem natLEBytes_ne_nil (n : Nat) (h0 : n ≠ 0) : natLEBytes n ≠ [] := by
  simp [natLEBytes, natLEAux, h0]

theorem scriptIntBytes_ne_nil (v : Int) (h0 : v.natAbs ≠ 0) : scriptIntBytes v ≠ [] := by
  unfold scriptIntBytes
  have hmag := natLEBytes_ne_nil v.natAbs h0
  cases hg : (natLEBytes v.natAbs).getLast? with
  | none => exact absurd (List.getLast?_eq_none_iff.mp hg) hmag
  | some last =>
    simp only [hg]
    by_cases hbig : 0x80 ≤ last
    · simp [hbig]
    · by_cases hneg : v < 0
      · simp [hbig, hneg]
      · simpa [hbig, hneg] using hmag

theorem fromLE_scriptIntBytes (v : Nat) (h0 : v ≠ 0) (hv : v < 256 ^ 33) :
    fromLE (scriptIntBytes (v : Int)) = v := by
  unfold scriptIntBytes
  have habs : (v : Int).natAbs = v := Int.natAbs_ofNat v
  have hmag := natLEBytes_ne_nil v (by omega)
  rw [habs]
  cases hg : (natLEBytes v).getLast? with
  | none => exact absurd (List.getLast?_eq_none_iff.mp hg) hmag
  | some last =>
    have hnneg : ¬((v : Int) < 0) := by omega
    simp only [hg, hnneg, if_false]
    by_cases hbig : 0x80 ≤ last
    · simp only [hbig, if_true]
      rw [fromLE_append_zero]
      exact fromLE_natLEBytes v hv
    · simp only [hbig, if_false]
      exact fromLE_natLEBytes v hv

theorem pushIntDecode_pushIntE (v : Nat) (hv : v < 256 ^ 33) :
    pushIntDecode (pushIntE (v : Int)) = some v := by
  unfold pushIntE
  by_cases h16 : 1 ≤ v ∧ v ≤ 16
  · have hcond : (v : Int) = -1 ∨ (1 ≤ (v : Int) ∧ (v : Int) ≤ 16) := by omega
    rw [if_pos hcond]
    have hb : ((v : Int) - 1 + 0x51).toNat = v + 80 := by omega
    rw [hb]
    have hz : ¬(v + 80 = 0) := by omega
    have hr : 0x51 ≤ v + 80 ∧ v + 80 ≤ 0x60 := by omega
    simp [pushIntDecode, hz, hr]
  · by_cases h0 : v = 0
    · subst h0
      norm_num [pushIntDecode]
    · have hcond : ¬((v : Int) = -1 ∨ (1 ≤ (v : Int) ∧ (v : Int) ≤ 16)) := by omega
      have hz : ¬((v : Int) = 0) := by omega
      rw [if_neg hcond, if_neg hz]
      have hne := scriptIntBytes_ne_nil (v : Int) (by simp [Int.natAbs_ofNat, h0])
      cases hbr : scriptIntBytes (v : Int) with
      | nil => exact absurd hbr hne
      | cons b rest =>
        have hred : pushIntDecode ((b :: rest).length :: b :: rest) = some (fromLE (b :: rest)) := rfl
        rw [hred, ← hbr, fromLE_scriptIntBytes v h0 hv]

theorem pushIntE_inj (v1 v2 : Nat) (h1 : v1 < 256 ^ 33) (h2 : v2 < 256 ^ 33)
    (he : pushIntE (v1 : Int) = pushIntE (v2 : Int)) : v1 = v2 := by
  have hd := pushIntDecode_pushIntE v1 h1
  rw [he, pushIntDecode_pushIntE v2 h2] at hd
  exact (Option.some.inj hd).symm

theorem scriptIntBytes_length_le (v : Int) (k : Nat) (hv : v.natAbs < 256 ^ k)
    (hk : k ≤ 33) : (scriptIntBytes v).length ≤ k + 1 := by
  unfold scriptIntBytes
  have hlen : (natLEBytes v.natAbs).length ≤ k := natLEAux_length_le 33 k v.natAbs hv hk
  cases hg : (natLEBytes v.natAbs).getLast? with
  | none => simp [hg]
  | some last =>
    simp only [hg]
    by_cases hbig : 0x80 ≤ last
    · simp only [hbig, if_true, List.length_append, List.length_cons, List.length_nil]
      omega
    · by_cases hneg : v < 0
      · simp only [hbig, if_false, hneg, if_true, List.length_append,
          List.length_dropLast, List.length_cons, List.length_nil]
        omega
      · simp only [hbig, if_false, hneg]
        omega

theorem pushIntE_length_le (v : Int) (k : Nat) (hv : v.natAbs < 256 ^ k)
    (hk : k ≤ 33) : (pushIntE v).length ≤ k + 2 := by
  unfold pushIntE
  by_cases hc : v = -1 ∨ (1 ≤ v ∧ v ≤ 16)
  · simp [hc]
  · by_cases h0 : v = 0
    · simp [hc, h0]
    · rw [if_neg hc, if_neg h0]
      have := scriptIntBytes_length_le v k hv hk
      simp only [List.length_cons]
      omega

theorem pushIntE_length_pos (v : Int) : 0 < (pushIntE v).length := by
  unfold pushIntE
  by_cases hc : v = -1 ∨ (1 ≤ v ∧ v ≤ 16)
  · simp [hc]
  · by_cases h0 : v = 0
    · simp [hc, h0]
    · simp [hc, h0]

/-! ## Lemmas: script shapes -/

theorem winScript_length (δ : Nat) (w : Player) :
    (winScript δ w).length = (pushIntE (δ : Int)).length + 71 := by
  simp [winScript, pushData32, xonlySer, beBytes_length]

theorem reclaimScript_length (δ : Nat) (mm : MarketMaker) :
    (reclaimScript δ mm).length = (pushIntE (2 * (δ : Int))).length + 36 := by
  simp [reclaimScript, pushData32, xonlySer, beBytes_length]

theorem sellbackScript_length (w : Player) (mm : MarketMaker) :
    (sellbackScript w mm).length = 69 := by
  simp [sellbackScript, pushData32, beBytes_length, xonlySer]

theorem winScript_ne_sellbackScript (δ : Nat) (w w' : Player) (mm : MarketMaker) :
    winScript δ w ≠ sellbackScript w' mm := by
  intro he
  have hl := congrArg List.length he
  rw [winScript_length, sellbackScript_length] at hl
  have := pushIntE_length_pos (δ : Int)
  omega

theorem reclaimScript_ne_sellbackScript (δ : Nat) (hδ : δ < 65536)
    (w : Player) (mm mm' : MarketMaker) : reclaimScript δ mm ≠ sellbackScript w mm' := by
  intro he
  have hl := congrArg List.length he
  rw [reclaimScript_length, sellbackScript_length] at hl
  have hle : (pushIntE (2 * (δ : Int))).length ≤ 5 := by
    have habs : (2 * (δ : Int)).natAbs = 2 * δ := by omega
    have : (2 * (δ : Int)).natAbs < 256 ^ 3 := by rw [habs]; norm_num; omega
    have := pushIntE_length_le (2 * (δ : Int)) 3 this (by norm_num)
    omega
  omega

theorem winScript_ne_reclaimScript (δ1 δ2 : Nat) (hδ2 : δ2 < 65536)
    (w : Player) (mm : MarketMaker) : winScript δ1 w ≠ reclaimScript δ2 mm := by
  intro he
  have hl := congrArg List.length he
  rw [winScript_length, reclaimScript_length] at hl
  have hpos := pushIntE_length_pos (δ1 : Int)
  have hle : (pushIntE (2 * (δ2 : Int))).length ≤ 5 := by
    have habs : (2 * (δ2 : Int)).natAbs = 2 * δ2 := by omega
    have : (2 * (δ2 : Int)).natAbs < 256 ^ 3 := by rw [habs]; norm_num; omega
    have := pushIntE_length_le (2 * (δ2 : Int)) 3 this (by norm_num)
    omega
  omega

theorem find_leavesOf_win (s w r : List Nat) :
    (leavesOfScripts s w r).find? (fun l => l.1 == w) =
      some (w, [tapLeafHash r, tapLeafHash s]) := by
  rw [leavesOfScripts, List.find?_cons_of_pos _ (by simp)]

theorem find_leavesOf_rcl (s w r : List Nat) (hwr : w ≠ r) :
    (leavesOfScripts s w r).find? (fun l => l.1 == r) =
      some (r, [tapLeafHash w, tapLeafHash s]) := by
  rw [leavesOfScripts, List.find?_cons_of_neg _ (by simp [hwr]),
    List.find?_cons_of_pos _ (by simp)]

theorem find_leavesOf_sell (s w r : List Nat) (hws : w ≠ s) (hrs : r ≠ s) :
    (leavesOfScripts s w r).find? (fun l => l.1 == s) =
      some (s, [tapBranchHash (tapLeafHash w) (tapLeafHash r)]) := by
  rw [leavesOfScripts, List.find?_cons_of_neg _ (by simp [hws]),
    List.find?_cons_of_neg _ (by simp [hrs]), List.find?_cons_of_pos _ (by simp)]

/-! ## Lemmas: the construction pipeline -/

theorem withHuffmanTree_eq (jp : PointA) (s w r : List Nat) :
    withHuffmanTree jp [(2, s), (1, w), (1, r)] =
      match tapTweakPoint jp (rootOfScripts s w r) with
      | none => .panicked
      | some outP =>
          .ok ⟨evenY jp, some (rootOfScripts s w r), leavesOfScripts s w r, outP⟩ := rfl

theorem newSplit_eq (w : Player) (mm : MarketMaker) (v : Nat) (δ : Fin 65536) :
    newSplit w mm v δ =
      match keyAggNew (sortedKeyList mm.pubkey w.pubkey) with
      | none => .err .setup
      | some uctx =>
        match tapTweakPoint uctx.agg
            (rootOfScripts (sellbackScript w mm) (winScript δ.val w) (reclaimScript δ.val mm)) with
        | none => .panicked
        | some q =>
            .ok ⟨uctx, ⟨uctx.pubkeys, q⟩, v,
              ⟨evenY uctx.agg,
               some (rootOfScripts (sellbackScript w mm) (winScript δ.val w)
                 (reclaimScript δ.val mm)),
               leavesOfScripts (sellbackScript w mm) (winScript δ.val w)
                 (reclaimScript δ.val mm), q⟩,
              w, winScript δ.val w, reclaimScript δ.val mm, sellbackScript w mm⟩ := by
  unfold newSplit
  cases hk : keyAggNew (sortedKeyList mm.pubkey w.pubkey) with
  | none => rfl
  | some uctx =>
    dsimp only
    rw [withHuffmanTree_eq]
    cases ht : tapTweakPoint uctx.agg
        (rootOfScripts (sellbackScript w mm) (winScript δ.val w) (reclaimScript δ.val mm)) with
    | none => rfl
    | some q =>
      simp only [withTaprootTweak, ht]
      rfl

theorem winScript_decomp (δ : Nat) (w : Player) :
    winScript δ w = pushIntE (δ : Int) ++
      ([opCSV, opDROP] ++ ([opSHA256] ++ (pushData32 (beBytes 32 w.ticketHash) ++
        ([opEQUALVERIFY] ++ (pushData32 (xonlySer w.pubkey) ++ [opCHECKSIG]))))) := by
  simp [winScript, List.append_assoc]

theorem reclaimScript_decomp (δ : Nat) (mm : MarketMaker) :
    reclaimScript δ mm = pushIntE (2 * (δ : Int)) ++
      ([opCSV, opDROP] ++ (pushData32 (xonlySer mm.pubkey) ++ [opCHECKSIG])) := by
  simp [reclaimScript, List.append_assoc]

theorem winScript_inj_delta {δ1 δ2 : Nat} (h1 : δ1 < 256 ^ 33) (h2 : δ2 < 256 ^ 33)
    (w : Player) (he : winScript δ1 w = winScript δ2 w) : δ1 = δ2 := by
  rw [winScript_decomp, winScript_decomp] at he
  exact pushIntE_inj δ1 δ2 h1 h2 (List.append_cancel_right he)

theorem reclaimScript_inj_delta {δ1 δ2 : Nat} (h1 : δ1 < 65536) (h2 : δ2 < 65536)
    (mm : MarketMaker) (he : reclaimScript δ1 mm = reclaimScript δ2 mm) : δ1 = δ2 := by
  rw [reclaimScript_decomp, reclaimScript_decomp] at he
  have hc1 : (2 * (δ1 : Int)) = ((2 * δ1 : Nat) : Int) := by push_cast; ring
  have hc2 : (2 * (δ2 : Int)) = ((2 * δ2 : Nat) : Int) := by push_cast; ring
  rw [hc1, hc2] at he
  have := pushIntE_inj (2 * δ1) (2 * δ2) (by norm_num; omega) (by norm_num; omega)
    (List.append_cancel_right he)
  omega

/-! ## The claims -/

/-- C1: for every winner identity (public key, ticket hash, payout hash),
counterparty key, payout value and round delay, the three scripts stored by
a successful construction are exactly the specified opcode sequences:
win = push(delay), OP_CSV, OP_DROP, OP_SHA256, push(ticket hash),
OP_EQUALVERIFY, push(x-only winner key), OP_CHECKSIG; reclaim =
push(2·delay), OP_CSV, OP_DROP, push(x-only counterparty key), OP_CHECKSIG;
sellback = OP_SHA256, push(payout hash), OP_EQUALVERIFY, push(x-only
counterparty key), OP_CHECKSIG. -/
theorem c1_scripts_exact (w : Player) (mm : MarketMaker) (v : Nat) (δ : Fin 65536) :
    match newSplit w mm v δ with
    | .ok d =>
        d.winScr = pushIntE (δ.val : Int) ++ [opCSV, opDROP] ++ [opSHA256] ++
            (0x20 :: beBytes 32 w.ticketHash) ++ [opEQUALVERIFY] ++
            (0x20 :: beBytes 32 w.pubkey.1) ++ [opCHECKSIG] ∧
        d.reclaimScr = pushIntE (2 * (δ.val : Int)) ++ [opCSV, opDROP] ++
            (0x20 :: beBytes 32 mm.pubkey.1) ++ [opCHECKSIG] ∧
        d.sellbackScr = [opSHA256] ++ (0x20 :: beBytes 32 w.payoutHash) ++ [opEQUALVERIFY] ++
            (0x20 :: beBytes 32 mm.pubkey.1) ++ [opCHECKSIG]
    | _ => True := by
  rw [newSplit_eq]
  cases keyAggNew (sortedKeyList mm.pubkey w.pubkey) with
  | none => trivial
  | some uctx =>
    dsimp only
    cases tapTweakPoint uctx.agg
        (rootOfScripts (sellbackScript w mm) (winScript δ.val w) (reclaimScript δ.val mm)) with
    | none => trivial
    | some q =>
      refine ⟨?_, ?_, ?_⟩ <;>
        simp [winScript, reclaimScript, sellbackScript, pushData32, xonlySer]

/-- C2: for every successful construction, the tweaked aggregation context
is obtained by tweaking the stored untweaked context with the same merkle
root the taproot spend info carries, and the x-only serialization of the
tweaked context's aggregated key is exactly the 32-byte key embedded in
`script_pubkey()` (bytes 2..34). -/
theorem c2_tweak_consistency (w : Player) (mm : MarketMaker) (v : Nat) (δ : Fin 65536) :
    match newSplit w mm v δ with
    | .ok d =>
        d.spendInfo.mroot.elim False
          (fun root => withTaprootTweak d.untweakedCtx root = some d.tweakedCtx) ∧
        xonlySer d.tweakedCtx.agg = (scriptPubkey d).drop 2
    | _ => True := by
  rw [newSplit_eq]
  cases keyAggNew (sortedKeyList mm.pubkey w.pubkey) with
  | none => trivial
  | some uctx =>
    dsimp only
    cases ht : tapTweakPoint uctx.agg
        (rootOfScripts (sellbackScript w mm) (winScript δ.val w) (reclaimScript δ.val mm)) with
    | none => trivial
    | some q =>
      refine ⟨?_, ?_⟩
      · simp only [Option.elim, withTaprootTweak, ht, Option.map_some']
      · simp [scriptPubkey]

/-- C3: key aggregation is order-independent.  Two distinct valid public
keys have distinct compressed serializations, and presenting them to the
construction in either role order (the `vec![market_maker, winner]` of
split.rs:46) yields the same sorted key list, hence the same untweaked
`KeyAggContext` and the same joint aggregated key. -/
theorem c3_key_order_independent (k1 k2 : PointA) (h : serP k1 ≠ serP k2) :
    sortedKeyList k1 k2 = sortedKeyList k2 k1 ∧
    keyAggNew (sortedKeyList k1 k2) = keyAggNew (sortedKeyList k2 k1) := by
  have hs : sortedKeyList k1 k2 = sortedKeyList k2 k1 := by
    unfold sortedKeyList
    rcases listLe_total (serP k1) (serP k2) with h12 | h21
    · have h21f : listLe (serP k2) (serP k1) = false := by
        cases heq : listLe (serP k2) (serP k1) with
        | false => rfl
        | true => exact absurd (listLe_antisymm _ _ h12 heq) h
      simp [h12, h21f]
    · have h12f : listLe (serP k1) (serP k2) = false := by
        cases heq : listLe (serP k1) (serP k2) with
        | false => rfl
        | true => exact absurd (listLe_antisymm _ _ heq h21) h
      simp [h12f, h21]
  exact ⟨hs, by rw [hs]⟩

theorem c3_key_order_independent_witness :
    serP gPoint ≠ serP pt2G ∧
    (sortedKeyList gPoint pt2G = sortedKeyList pt2G gPoint ∧
     keyAggNew (sortedKeyList gPoint pt2G) = keyAggNew (sortedKeyList pt2G gPoint)) :=
  ⟨by decide, c3_key_order_independent gPoint pt2G (by decide)⟩

/-- C4: for every successful construction, each weight prediction is built
from zero script-sig bytes and exactly the witness elements of the claim:
win = [64-byte signature, preimage, win script, win control block (97
bytes)], reclaim = [64-byte signature, reclaim script, reclaim control
block (97 bytes)] with no preimage term, sellback = [64-byte signature,
preimage, sellback script, sellback control block (65 bytes)]. -/
theorem c4_weight_components (w : Player) (mm : MarketMaker) (v : Nat) (δ : Fin 65536) :
    match newSplit w mm v δ with
    | .ok d =>
        inputWeightForWinTx d =
          some (iwpNew 0 [schnorrSigSize, preimageSize, d.winScr.length, 97]) ∧
        inputWeightForReclaimTx d =
          some (iwpNew 0 [schnorrSigSize, d.reclaimScr.length, 97]) ∧
        inputWeightForSellbackTx d =
          some (iwpNew 0 [schnorrSigSize, preimageSize, d.sellbackScr.length, 65])
    | _ => True := by
  rw [newSplit_eq]
  cases keyAggNew (sortedKeyList mm.pubkey w.pubkey) with
  | none => trivial
  | some uctx =>
    dsimp only
    cases tapTweakPoint uctx.agg
        (rootOfScripts (sellbackScript w mm) (winScript δ.val w) (reclaimScript δ.val mm)) with
    | none => trivial
    | some q =>
      refine ⟨?_, ?_, ?_⟩
      · show inputWeightForWinTx _ = _
        unfold inputWeightForWinTx controlBlockFind
        dsimp only
        rw [find_leavesOf_win]
        simp [cbSize]
      · show inputWeightForReclaimTx _ = _
        unfold inputWeightForReclaimTx controlBlockFind
        dsimp only
        rw [find_leavesOf_rcl _ _ _
          (winScript_ne_reclaimScript δ.val δ.val δ.isLt w mm)]
        simp [cbSize]
      · show inputWeightForSellbackTx _ = _
        unfold inputWeightForSellbackTx controlBlockFind
        dsimp only
        rw [find_leavesOf_sell _ _ _
          (winScript_ne_sellbackScript δ.val w w mm)
          (reclaimScript_ne_sellbackScript δ.val δ.isLt w mm mm)]
        simp [cbSize]

/-- C5: for every successful construction, the tree places the weight-2
sellback leaf at depth one and the weight-1 win and reclaim leaves at depth
two, so the sellback control block serializes to 65 bytes and the other two
to 97 bytes each — in particular the sellback control block is no longer
than the win and reclaim ones. -/
theorem c5_sellback_shallowest (w : Player) (mm : MarketMaker) (v : Nat) (δ : Fin 65536) :
    match newSplit w mm v δ with
    | .ok d =>
        (controlBlockFind d.spendInfo d.sellbackScr).map cbSize = some 65 ∧
        (controlBlockFind d.spendInfo d.winScr).map cbSize = some 97 ∧
        (controlBlockFind d.spendInfo d.reclaimScr).map cbSize = some 97
    | _ => True := by
  rw [newSplit_eq]
  cases keyAggNew (sortedKeyList mm.pubkey w.pubkey) with
  | none => trivial
  | some uctx =>
    dsimp only
    cases tapTweakPoint uctx.agg
        (rootOfScripts (sellbackScript w mm) (winScript δ.val w) (reclaimScript δ.val mm)) with
    | none => trivial
    | some q =>
      refine ⟨?_, ?_, ?_⟩
      · unfold controlBlockFind
        dsimp only
        rw [find_leavesOf_sell _ _ _
          (winScript_ne_sellbackScript δ.val w w mm)
          (reclaimScript_ne_sellbackScript δ.val δ.isLt w mm mm)]
        simp [cbSize]
      · unfold controlBlockFind
        dsimp only
        rw [find_leavesOf_win]
        simp [cbSize]
      · unfold controlBlockFind
        dsimp only
        rw [find_leavesOf_rcl _ _ _
          (winScript_ne_reclaimScript δ.val δ.val δ.isLt w mm)]
        simp [cbSize]

/-- C6: the locking script returned by `script_pubkey()` is always exactly
34 bytes: the version-1 witness marker `OP_PUSHNUM_1`, the `OP_PUSHBYTES_32`
length byte, then the 32-byte x-only output key. -/
theorem c6_script_pubkey_v1 (d : SplitSpendInfo) :
    (scriptPubkey d).length = 34 ∧
    (scriptPubkey d).take 2 = [0x51, 0x20] ∧
    (scriptPubkey d).drop 2 = xonlySer d.spendInfo.outputPoint := by
  refine ⟨?_, ?_, ?_⟩ <;> simp [scriptPubkey, xonlySer, beBytes_length]

/-- C7 (amended): constructions that differ only in the round delay have
different win script bytes and different reclaim script bytes (the
script-number encoding is injective), and their stored untweaked
aggregation contexts are identical.  The original claim further asserted
that the commitment root and output key are unchanged; that part is false —
the root hashes the leaf scripts, so it changes with the delay (see the
counterexample) — and is therefore dropped here. -/
theorem c7_delay_frame (w : Player) (mm : MarketMaker) (v : Nat) (δ1 δ2 : Fin 65536)
    (h : δ1.val ≠ δ2.val) :
    winScript δ1.val w ≠ winScript δ2.val w ∧
    reclaimScript δ1.val mm ≠ reclaimScript δ2.val mm ∧
    (match newSplit w mm v δ1, newSplit w mm v δ2 with
     | .ok d1, .ok d2 => d1.untweakedCtx = d2.untweakedCtx
     | _, _ => True) := by
  refine ⟨?_, ?_, ?_⟩
  · intro he
    exact h (winScript_inj_delta (by exact lt_trans δ1.isLt (by norm_num))
      (by exact lt_trans δ2.isLt (by norm_num)) w he)
  · intro he
    exact h (reclaimScript_inj_delta δ1.isLt δ2.isLt mm he)
  · rw [newSplit_eq, newSplit_eq]
    cases keyAggNew (sortedKeyList mm.pubkey w.pubkey) with
    | none => trivial
    | some uctx =>
      dsimp only
      cases tapTweakPoint uctx.agg
          (rootOfScripts (sellbackScript w mm) (winScript δ1.val w)
            (reclaimScript δ1.val mm)) with
      | none =>
        cases tapTweakPoint uctx.agg
            (rootOfScripts (sellbackScript w mm) (winScript δ2.val w)
              (reclaimScript δ2.val mm)) with
        | none => trivial
        | some q2 => trivial
      | some q1 =>
        cases tapTweakPoint uctx.agg
            (rootOfScripts (sellbackScript w mm) (winScript δ2.val w)
              (reclaimScript δ2.val mm)) with
        | none => trivial
        | some q2 => rfl

theorem c7_delay_frame_witness :
    (1 : Fin 65536).val ≠ (2 : Fin 65536).val ∧
    (winScript (1 : Fin 65536).val wC ≠ winScript (2 : Fin 65536).val wC ∧
     reclaimScript (1 : Fin 65536).val mmC ≠ reclaimScript (2 : Fin 65536).val mmC ∧
     (match newSplit wC mmC 100000 1, newSplit wC mmC 100000 2 with
      | .ok d1, .ok d2 => d1.untweakedCtx = d2.untweakedCtx
      | _, _ => True)) :=
  ⟨by decide, c7_delay_frame wC mmC 100000 1 2 (by decide)⟩

/-- C8: the failure branches guarded by `expect` are never taken.  First,
the huffman tree built from the three weighted leaves always carries a
merkle root (`merkle_root()` is `Some`, so the `expect` at split.rs:112
cannot fire); second, for every descriptor produced by `new`, the three
control-block lookups of the weight estimators succeed (the `expect`s at
split.rs:153, 175 and 196 cannot fire).  In the embedding these `expect`s
are the `panicked`/`none` outcomes, distinct from ordinary `Error` results,
matching the claim that such an absence would be an unrecoverable panic
rather than an error return. -/
theorem c8_no_failure_branch (w : Player) (mm : MarketMaker) (v : Nat) (δ : Fin 65536)
    (jp : PointA) (s scr1 scr2 : List Nat) :
    (match withHuffmanTree jp [(2, s), (1, scr1), (1, scr2)] with
     | .ok tsi => tsi.mroot.isSome = true
     | _ => True) ∧
    (match newSplit w mm v δ with
     | .ok d =>
         (inputWeightForWinTx d).isSome = true ∧
         (inputWeightForReclaimTx d).isSome = true ∧
         (inputWeightForSellbackTx d).isSome = true
     | _ => True) := by
  constructor
  · rw [withHuffmanTree_eq]
    cases tapTweakPoint jp (rootOfScripts s scr1 scr2) with
    | none => trivial
    | some outP => rfl
  · rw [newSplit_eq]
    cases keyAggNew (sortedKeyList mm.pubkey w.pubkey) with
    | none => trivial
    | some uctx =>
      dsimp only
      cases tapTweakPoint uctx.agg
          (rootOfScripts (sellbackScript w mm) (winScript δ.val w)
            (reclaimScript δ.val mm)) with
      | none => trivial
      | some q =>
        refine ⟨?_, ?_, ?_⟩
        · unfold inputWeightForWinTx controlBlockFind
          dsimp only
          rw [find_leavesOf_win]
          rfl
        · unfold inputWeightForReclaimTx controlBlockFind
          dsimp only
          rw [find_leavesOf_rcl _ _ _
            (winScript_ne_reclaimScript δ.val δ.val δ.isLt w mm)]
          rfl
        · unfold inputWeightForSellbackTx controlBlockFind
          dsimp only
          rw [find_leavesOf_sell _ _ _
            (winScript_ne_sellbackScript δ.val w w mm)
            (reclaimScript_ne_sellbackScript δ.val δ.isLt w mm mm)]
          rfl

/-- C9 (amended): construction returns a `SetupError` exactly when the
BIP327 aggregation of the sorted key pair is degenerate (the
coefficient-weighted sum of the keys is the point at infinity).  A
duplicated key is not by itself degenerate: MuSig2 key aggregation
explicitly supports repeated keys, and at the concrete input where the
winner's key equals the market maker's key the construction succeeds (see
the counterexample). -/
theorem c9_setup_error_iff_degenerate (w : Player) (mm : MarketMaker) (v : Nat)
    (δ : Fin 65536) :
    BuildResult.isErrB Error.setup (newSplit w mm v δ) =
      (keyAggNew (sortedKeyList mm.pubkey w.pubkey)).isNone := by
  rw [newSplit_eq]
  cases keyAggNew (sortedKeyList mm.pubkey w.pubkey) with
  | none => rfl
  | some uctx =>
    dsimp only
    cases tapTweakPoint uctx.agg
        (rootOfScripts (sellbackScript w mm) (winScript δ.val w)
          (reclaimScript δ.val mm)) with
    | none => rfl
    | some q => rfl

/-- C10: no round-delay validation is performed.  For every `u16` delay,
including zero, the construction succeeds exactly when the three fallible
steps (key aggregation, tree building with its merkle root, tweaking)
succeed; it never reports a validation error; and at delay zero the win
and reclaim scripts begin with a zero push (`OP_0`) before the
timelock-check-and-drop opcodes. -/
theorem c10_no_delay_validation (w : Player) (mm : MarketMaker) (v : Nat) (δ : Fin 65536) :
    (newSplit w mm v δ).isOkB = aggTreeTweakOk w mm δ ∧
    BuildResult.isErrB Error.validation (newSplit w mm v δ) = false ∧
    (winScript 0 w).take 3 = [0x00, opCSV, opDROP] ∧
    (reclaimScript 0 mm).take 3 = [0x00, opCSV, opDROP] := by
  have h0 : pushIntE ((0 : Nat) : Int) = [0x00] := by norm_num [pushIntE]
  refine ⟨?_, ?_, ?_, ?_⟩
  · rw [newSplit_eq]
    unfold aggTreeTweakOk
    cases keyAggNew (sortedKeyList mm.pubkey w.pubkey) with
    | none => rfl
    | some uctx =>
      dsimp only
      rw [withHuffmanTree_eq]
      cases ht : tapTweakPoint uctx.agg
          (rootOfScripts (sellbackScript w mm) (winScript δ.val w)
            (reclaimScript δ.val mm)) with
      | none => rfl
      | some q =>
        simp [withTaprootTweak, ht, BuildResult.isOkB]
  · rw [newSplit_eq]
    cases keyAggNew (sortedKeyList mm.pubkey w.pubkey) with
    | none => rfl
    | some uctx =>
      dsimp only
      cases tapTweakPoint uctx.agg
          (rootOfScripts (sellbackScript w mm) (winScript δ.val w)
            (reclaimScript δ.val mm)) with
      | none => rfl
      | some q => rfl
  · rw [winScript_decomp, h0]
    rfl
  · have h20 : (2 * ((0 : Nat) : Int)) = ((0 : Nat) : Int) := by norm_num
    rw [reclaimScript_decomp, h20, h0]
    rfl

/-- C7 counterexample: at the concrete inputs (winner key `G`, market-maker
key `2·G`, payout 100000) the constructions with round delays 1 and 2 both
succeed and store different commitment (merkle) roots — refuting the
original claim that the commitment root (and hence the output key, which is
derived from it) is unchanged when only the round delay changes. -/
theorem c7_root_changes_counterexample : rootsChangeWithDelay = true := by decide

/-- C9 counterexample: at the concrete input where the winner's public key
equals the market maker's public key (both the base point `G`),
construction succeeds — it does not fail with a `SetupError`, refuting the
claim that a duplicate key makes construction fail. -/
theorem c9_duplicate_keys_ok_counterexample : duplicateKeysOk = true := by decide

end Dlctix
